import Mathlib

/-!
# ESP32 BLE relay controller: command pipeline

A shallow embedding of `Frimware/Relay_BLE/src/main.cpp`: the BLE write
handler (`MyCallbacks::onWrite`), the connection callbacks
(`MyServerCallbacks::onConnect` / `onDisconnect`), the relay control task
(`relayControlTask`), `emergencyStop` and the part of `setup` that touches the
relay bank and the queue.

Modelling conventions
* The globals `deviceConnected`, `pCharacteristic`, `relayStates`, `relayQueue`
  are fields of `State`.  GPIO is modelled by the chronological list of
  `digitalWrite (pin, value)` calls; notifications by the chronological list of
  payloads handed to `setValue` / `notify`.
* Serial output is not part of the state; `statusLedTask`, `heartbeatTask` and
  `loop` (which touch only the LED pin, the serial port and advertising) are
  not modelled.
* Every callback and every iteration of the task body is one atomic step.
* The FreeRTOS queue is a list bounded by `QUEUE_SIZE`; `xQueueSend` appends at
  the back and fails on a full queue (nobody drains it during the bounded
  wait of a single atomic step), `xQueueReceive` removes from the front.
-/

namespace RelayBLE

/-! ## Constants (main.cpp lines 16-26) -/

def RELAY_1_PIN : Nat := 23
def RELAY_2_PIN : Nat := 5
def RELAY_3_PIN : Nat := 4
def RELAY_4_PIN : Nat := 13
def LED_PIN : Nat := 15
def QUEUE_SIZE : Nat := 10

/-- Arduino logic levels. -/
def LOW : Nat := 0
def HIGH : Nat := 1

/-- An 8-bit value as delivered by the transport (one element of `rxValue`). -/
abbrev Byte := Fin 256

/-- The struct `RelayCommand` (lines 29-32); both fields are `uint8_t`. -/
structure RelayCommand where
  relay_number : Nat
  state : Nat
  deriving DecidableEq, Repr

/-- The array `relayPins[4]` (line 47). -/
def relayPins (i : Fin 4) : Nat :=
  match i with
  | 0 => RELAY_1_PIN
  | 1 => RELAY_2_PIN
  | 2 => RELAY_3_PIN
  | 3 => RELAY_4_PIN

/-- The global state the command pipeline reads and writes. -/
structure State where
  /-- The flag `deviceConnected` (line 37). -/
  deviceConnected : Bool
  /-- Whether the pointer `pCharacteristic` is non-null (line 36). -/
  pCharacteristic : Bool
  /-- The array `relayStates[4]` (line 48). -/
  relayStates : Fin 4 → Bool
  /-- The contents of `relayQueue`, front first. -/
  relayQueue : List RelayCommand
  /-- Every `digitalWrite (pin, value)` call so far, oldest first. -/
  gpioLog : List (Nat × Nat)
  /-- Every payload sent with `setValue` + `notify` so far, oldest first. -/
  notified : List String

/-! ## Primitives of the platform -/

/-- The call `digitalWrite(pin, val)`: recorded in the GPIO log. -/
def digitalWrite (pin val : Nat) (s : State) : State :=
  { s with gpioLog := s.gpioLog ++ [(pin, val)] }

/-- The level a pin was last driven to, if it was ever written. -/
def pinLevel (log : List (Nat × Nat)) (pin : Nat) : Option Nat :=
  (log.reverse.find? (fun w => w.1 == pin)).map (fun w => w.2)

/-- The call `xQueueSend(relayQueue, &cmd, ...)` on a queue of capacity
`QUEUE_SIZE`: the new contents and `pdTRUE` / `pdFALSE`. -/
def xQueueSend (q : List RelayCommand) (cmd : RelayCommand) : List RelayCommand × Bool :=
  if q.length < QUEUE_SIZE then (q ++ [cmd], true) else (q, false)

/-- The call `xQueueReceive(relayQueue, &cmd, portMAX_DELAY)`: the front item
and the remaining contents; `none` when the queue is empty (the call does not
return until an item arrives). -/
def xQueueReceive (q : List RelayCommand) : Option (RelayCommand × List RelayCommand) :=
  match q with
  | [] => none
  | cmd :: rest => some (cmd, rest)

/-- The conversion `uint8_t x = c - '0'`: the `int` difference reduced modulo 256.
(The result is the same whether `char` is signed or unsigned.) -/
def charToDigit (c : Byte) : Nat :=
  (((c.val : Int) - 48) % 256).toNat

/-! ## Callbacks and tasks -/

/-- The callback `MyServerCallbacks::onConnect` (lines 52-61). -/
def onConnect (s : State) : State :=
  digitalWrite LED_PIN HIGH { s with deviceConnected := true }

/-- The loop `for (i = 0; i < 4; i++) { digitalWrite(relayPins[i], LOW);
relayStates[i] = false; }` shared by `onDisconnect` (lines 71-74) and
`emergencyStop` (lines 368-371). -/
def allOffLoop (s : State) : State :=
  ([0, 1, 2, 3] : List (Fin 4)).foldl
    (fun st i =>
      let st1 := digitalWrite (relayPins i) LOW st
      { st1 with relayStates := Function.update st1.relayStates i false })
    s

/-- The callback `MyServerCallbacks::onDisconnect` (lines 63-80). -/
def onDisconnect (s : State) : State :=
  allOffLoop (digitalWrite LED_PIN LOW { s with deviceConnected := false })

/-- The function `emergencyStop` (lines 364-380). -/
def emergencyStop (s : State) : State :=
  allOffLoop s

/-- The callback `MyCallbacks::onWrite` (lines 85-117), with `rxValue` the
value written by the peer. -/
def onWrite (rxValue : List Byte) (s : State) : State :=
  if rxValue.length > 0 then
    if rxValue.length ≥ 3 ∧ rxValue.getD 0 0 = 82 then
      let cmd : RelayCommand :=
        { relay_number := charToDigit (rxValue.getD 1 0)
          state := charToDigit (rxValue.getD 2 0) }
      if cmd.relay_number ≥ 1 ∧ cmd.relay_number ≤ 4 ∧ (cmd.state = 0 ∨ cmd.state = 1) then
        match xQueueSend s.relayQueue cmd with
        | (q, true) => { s with relayQueue := q }
        | (_, false) => s
      else s
    else s
  else s

/-- The acknowledgment `"ACK_R" + String(cmd.relay_number) + String(cmd.state)`
(line 147); `String(uint8_t)` is the decimal representation. -/
def ackResponse (cmd : RelayCommand) : String :=
  "ACK_R" ++ toString cmd.relay_number ++ toString cmd.state

/-- One iteration of the loop of `relayControlTask` (lines 124-152).
On an empty queue `xQueueReceive` does not return and the state is left as it
is.  The result is `none` when `relayIndex` falls outside the four-element
arrays `relayStates` and `relayPins` (the source performs no check). -/
def relayControlTask (s : State) : Option State :=
  match xQueueReceive s.relayQueue with
  | none => some s
  | some (cmd, rest) =>
    let relayIndex : Int := (cmd.relay_number : Int) - 1
    if h : 0 ≤ relayIndex ∧ relayIndex < 4 then
      let i : Fin 4 := ⟨relayIndex.toNat, by omega⟩
      let s1 : State :=
        { s with relayQueue := rest
                 relayStates := Function.update s.relayStates i (cmd.state != 0) }
      let s2 := digitalWrite (relayPins i) cmd.state s1
      if s2.deviceConnected && s2.pCharacteristic then
        some { s2 with notified := s2.notified ++ [ackResponse cmd] }
      else some s2
    else none

/-- The state `setup` (lines 209-327) leaves behind when queue creation
succeeds: relay pins driven LOW, the LED start-up blink, an empty queue, the
characteristic created, nobody connected. -/
def setup : State :=
  { deviceConnected := false
    pCharacteristic := true
    relayStates := fun _ => false
    relayQueue := []
    gpioLog :=
      [(RELAY_1_PIN, LOW), (RELAY_2_PIN, LOW), (RELAY_3_PIN, LOW), (RELAY_4_PIN, LOW),
       (LED_PIN, LOW),
       (LED_PIN, HIGH), (LED_PIN, LOW), (LED_PIN, HIGH), (LED_PIN, LOW),
       (LED_PIN, HIGH), (LED_PIN, LOW)]
    notified := [] }

/-! ## Interleavings -/

/-- The atomic steps of the system. -/
inductive Event where
  | connect
  | disconnect
  | write (rxValue : List Byte)
  | task

/-- One atomic step. -/
def step (e : Event) (s : State) : Option State :=
  match e with
  | .connect => some (onConnect s)
  | .disconnect => some (onDisconnect s)
  | .write rxValue => some (onWrite rxValue s)
  | .task => relayControlTask s

/-- A schedule of atomic steps, run in order. -/
def run : List Event → State → Option State
  | [], s => some s
  | e :: es, s => (step e s).bind (run es)

/-- Successive iterations of the task loop. -/
def taskIterations : Nat → State → Option State
  | 0, s => some s
  | n + 1, s => (relayControlTask s).bind (taskIterations n)

/-- Successive writes, one per buffer. -/
def writeAll (bufs : List (List Byte)) (s : State) : State :=
  bufs.foldl (fun st b => onWrite b st) s

/-- The number of `digitalWrite` calls on relay pins recorded in a GPIO log. -/
def relayWriteCount (log : List (Nat × Nat)) : Nat :=
  (log.filter (fun w => decide (∃ i : Fin 4, relayPins i = w.1))).length

/-- A command with channel in 1..4 and state in 0..1. -/
def RelayCommand.valid (c : RelayCommand) : Prop :=
  1 ≤ c.relay_number ∧ c.relay_number ≤ 4 ∧ c.state ≤ 1

instance instDecidableValid (c : RelayCommand) : Decidable c.valid := by
  unfold RelayCommand.valid; infer_instance

/-- The three-byte wire form R, channel digit, state digit of a command. -/
def commandBytes (c : RelayCommand) : List Byte :=
  [82, Fin.ofNat (48 + c.relay_number), Fin.ofNat (48 + c.state)]

/-- The `digitalWrite` call by which the task applies a command:
`digitalWrite(relayPins[relay_number - 1], state)`. -/
def actuation (c : RelayCommand) : Nat × Nat :=
  (relayPins (Fin.ofNat (c.relay_number - 1)), c.state)

/-- The commands a step put into the queue: what a write appended to it. -/
def enqueuedAt (e : Event) (s s' : State) : List RelayCommand :=
  match e with
  | .write _ => s'.relayQueue.drop s.relayQueue.length
  | _ => []

/-- The `digitalWrite` calls a step of the task made. -/
def actuatedAt (e : Event) (s s' : State) : List (Nat × Nat) :=
  match e with
  | .task => s'.gpioLog.drop s.gpioLog.length
  | _ => []

/-- The commands successfully enqueued along a schedule, in order. -/
def enqueuedBy : List Event → State → List RelayCommand
  | [], _ => []
  | e :: es, s =>
    match step e s with
    | none => []
    | some s' => enqueuedAt e s s' ++ enqueuedBy es s'

/-- The `digitalWrite` calls made by the task along a schedule, in order. -/
def actuatedBy : List Event → State → List (Nat × Nat)
  | [], _ => []
  | e :: es, s =>
    match step e s with
    | none => []
    | some s' => actuatedAt e s s' ++ actuatedBy es s'

/-- The queue respects its capacity and holds validated commands only. -/
def QueueInv (s : State) : Prop :=
  s.relayQueue.length ≤ QUEUE_SIZE ∧ ∀ c ∈ s.relayQueue, c.valid

/-! ## Basic facts about the primitives -/

theorem charToDigit_channel (c : Byte) :
    (charToDigit c ≥ 1 ∧ charToDigit c ≤ 4) ↔ (49 ≤ c.val ∧ c.val ≤ 52) := by
  have hc := c.isLt
  unfold charToDigit
  omega

theorem charToDigit_level (c : Byte) :
    (charToDigit c = 0 ∨ charToDigit c = 1) ↔ (c.val = 48 ∨ c.val = 49) := by
  have hc := c.isLt
  unfold charToDigit
  omega

theorem charToDigit_digit (c : Byte) (h : 48 ≤ c.val) : charToDigit c = c.val - 48 := by
  have hc := c.isLt
  unfold charToDigit
  omega

theorem pinLevel_append (log : List (Nat × Nat)) (p v q : Nat) :
    pinLevel (log ++ [(p, v)]) q = if p = q then some v else pinLevel log q := by
  unfold pinLevel
  by_cases h : p = q
  · simp [List.find?, h]
  · simp [List.find?, h]

theorem relayPins_injective : Function.Injective relayPins := by
  intro i j h
  fin_cases i <;> fin_cases j <;> first | rfl | (exact absurd h (by decide))

theorem allOffLoop_eq (s : State) :
    allOffLoop s =
      { s with
        relayStates := fun _ => false
        gpioLog := s.gpioLog ++
          [(RELAY_1_PIN, LOW), (RELAY_2_PIN, LOW), (RELAY_3_PIN, LOW), (RELAY_4_PIN, LOW)] } := by
  simp only [allOffLoop, List.foldl, digitalWrite, relayPins, List.append_assoc,
    List.singleton_append]
  congr 1
  funext i
  fin_cases i <;> simp [Function.update]

theorem relayControlTask_nil (s : State) (hq : s.relayQueue = []) :
    relayControlTask s = some s := by
  simp [relayControlTask, hq, xQueueReceive]

theorem relayControlTask_cons (s : State) (cmd : RelayCommand) (rest : List RelayCommand)
    (i : Fin 4) (hq : s.relayQueue = cmd :: rest) (hi : i.val + 1 = cmd.relay_number) :
    relayControlTask s = some
      { s with
        relayQueue := rest
        relayStates := Function.update s.relayStates i (cmd.state != 0)
        gpioLog := s.gpioLog ++ [(relayPins i, cmd.state)]
        notified := if s.deviceConnected && s.pCharacteristic
          then s.notified ++ [ackResponse cmd] else s.notified } := by
  have hidx : 0 ≤ (cmd.relay_number : Int) - 1 ∧ (cmd.relay_number : Int) - 1 < 4 := by
    have := i.isLt
    omega
  have hfin : (⟨((cmd.relay_number : Int) - 1).toNat, by omega⟩ : Fin 4) = i :=
    Fin.ext (by simp only; omega)
  simp only [relayControlTask, hq, xQueueReceive, dif_pos hidx, hfin, digitalWrite]
  cases s.deviceConnected <;> cases s.pCharacteristic <;> simp

theorem relayWriteCount_allOff (log : List (Nat × Nat)) :
    relayWriteCount (log ++
      [(RELAY_1_PIN, LOW), (RELAY_2_PIN, LOW), (RELAY_3_PIN, LOW), (RELAY_4_PIN, LOW)]) =
      relayWriteCount log + 4 := by
  simp only [relayWriteCount, List.filter_append, List.length_append]
  congr 1

theorem relayWriteCount_led (log : List (Nat × Nat)) (v : Nat) :
    relayWriteCount (log ++ [(LED_PIN, v)]) = relayWriteCount log := by
  have hled : ¬ (∃ i : Fin 4, relayPins i = LED_PIN) := by decide
  simp [relayWriteCount, List.filter_append, hled]

theorem onWrite_cases (rxValue : List Byte) (s : State) :
    onWrite rxValue s = s ∨
    (s.relayQueue.length < QUEUE_SIZE ∧
      ∃ c : RelayCommand, c.valid ∧
        onWrite rxValue s = { s with relayQueue := s.relayQueue ++ [c] }) := by
  by_cases h0 : rxValue.length > 0
  · by_cases h1 : rxValue.length ≥ 3 ∧ rxValue.getD 0 0 = 82
    · by_cases hv : charToDigit (rxValue.getD 1 0) ≥ 1 ∧ charToDigit (rxValue.getD 1 0) ≤ 4 ∧
          (charToDigit (rxValue.getD 2 0) = 0 ∨ charToDigit (rxValue.getD 2 0) = 1)
      · by_cases hlen : s.relayQueue.length < QUEUE_SIZE
        · right
          refine ⟨hlen, ⟨charToDigit (rxValue.getD 1 0), charToDigit (rxValue.getD 2 0)⟩,
            ⟨hv.1, hv.2.1, by rcases hv.2.2 with h | h <;> simp only [h] <;> omega⟩, ?_⟩
          simp only [onWrite, if_pos h0, if_pos h1, if_pos hv, xQueueSend, if_pos hlen]
        · left
          simp only [onWrite, if_pos h0, if_pos h1, if_pos hv, xQueueSend, if_neg hlen]
      · left
        simp only [onWrite, if_pos h0, if_pos h1, if_neg hv]
    · left
      simp only [onWrite, if_pos h0, if_neg h1]
  · left
    simp only [onWrite, if_neg h0]

theorem onWrite_full (rxValue : List Byte) (s : State)
    (hfull : s.relayQueue.length = QUEUE_SIZE) : onWrite rxValue s = s := by
  rcases onWrite_cases rxValue s with h | ⟨hlt, _⟩
  · exact h
  · omega

theorem step_inv (e : Event) (s : State) (h : QueueInv s) :
    ∃ s', step e s = some s' ∧ QueueInv s' := by
  cases e with
  | connect => exact ⟨_, rfl, h⟩
  | disconnect =>
    refine ⟨_, rfl, ?_⟩
    rw [onDisconnect, allOffLoop_eq]
    exact h
  | write rxValue =>
    refine ⟨_, rfl, ?_⟩
    rcases onWrite_cases rxValue s with hw | ⟨hlt, c, hc, hw⟩
    · rw [hw]; exact h
    · rw [hw]
      refine ⟨by simp only [List.length_append, List.length_singleton]; omega, ?_⟩
      intro d hd
      rcases List.mem_append.mp hd with hd | hd
      · exact h.2 d hd
      · rw [List.mem_singleton.mp hd]; exact hc
  | task =>
    cases hq : s.relayQueue with
    | nil => exact ⟨s, relayControlTask_nil s hq, h⟩
    | cons cmd rest =>
      have hv : cmd.valid := h.2 cmd (by rw [hq]; exact List.mem_cons_self _ _)
      have hlen := h.1
      rw [hq] at hlen
      have hi : (⟨cmd.relay_number - 1, by have := hv.1; have := hv.2.1; omega⟩ : Fin 4).val + 1
          = cmd.relay_number := by
        have := hv.1
        simp only
        omega
      refine ⟨_, relayControlTask_cons s cmd rest _ hq hi, ?_⟩
      refine ⟨by simp only [List.length_cons] at hlen ⊢; omega, ?_⟩
      intro d hd
      exact h.2 d (by rw [hq]; exact List.mem_cons_of_mem _ hd)

theorem run_inv (evs : List Event) : ∀ s : State, QueueInv s →
    ∃ s', run evs s = some s' ∧ QueueInv s' := by
  induction evs with
  | nil => intro s h; exact ⟨s, rfl, h⟩
  | cons e es ih =>
    intro s h
    obtain ⟨s1, h1, hinv1⟩ := step_inv e s h
    obtain ⟨s2, h2, hinv2⟩ := ih s1 hinv1
    exact ⟨s2, by simp [run, h1, h2], hinv2⟩

theorem setup_inv : QueueInv setup :=
  ⟨by decide, by intro c hc; cases hc⟩

theorem onWrite_valid (c st : Byte) (trailing : List Byte) (s : State)
    (hc : 49 ≤ c.val ∧ c.val ≤ 52) (hs : 48 ≤ st.val ∧ st.val ≤ 49)
    (hq : s.relayQueue.length < 10) :
    onWrite (82 :: c :: st :: trailing) s =
      { s with relayQueue := s.relayQueue ++
          [{ relay_number := c.val - 48, state := st.val - 48 }] } := by
  have h1 := charToDigit_channel c
  have h2 := charToDigit_level st
  have d1 := charToDigit_digit c (by omega)
  have d2 := charToDigit_digit st (by omega)
  have hv : charToDigit c ≥ 1 ∧ charToDigit c ≤ 4 ∧ (charToDigit st = 0 ∨ charToDigit st = 1) :=
    ⟨(h1.mpr hc).1, (h1.mpr hc).2, h2.mpr (by omega)⟩
  simp only [onWrite, xQueueSend, QUEUE_SIZE, List.length_cons, List.getD_cons_zero,
    List.getD_cons_succ]
  rw [if_pos (by omega), if_pos ⟨by omega, trivial⟩, if_pos hv, if_pos hq, d1, d2]

theorem onWrite_commandBytes (c : RelayCommand) (s : State) (hv : c.valid)
    (hq : s.relayQueue.length < 10) :
    onWrite (commandBytes c) s = { s with relayQueue := s.relayQueue ++ [c] } := by
  obtain ⟨h1, h2, h3⟩ := hv
  have e1 : (Fin.ofNat (48 + c.relay_number) : Byte).val = 48 + c.relay_number := by
    simp only [Fin.ofNat]; omega
  have e2 : (Fin.ofNat (48 + c.state) : Byte).val = 48 + c.state := by
    simp only [Fin.ofNat]; omega
  rw [commandBytes, onWrite_valid _ _ [] s (by omega) (by omega) hq, e1, e2]
  simp

theorem writeAll_commandBytes (cmds : List RelayCommand) : ∀ s : State,
    (∀ c ∈ cmds, c.valid) → s.relayQueue.length + cmds.length ≤ 10 →
    writeAll (cmds.map commandBytes) s = { s with relayQueue := s.relayQueue ++ cmds } := by
  induction cmds with
  | nil => intro s _ _; simp [writeAll]
  | cons c cs ih =>
    intro s hv hlen
    simp only [List.length_cons] at hlen
    have hc := hv c (List.mem_cons_self _ _)
    have step1 := onWrite_commandBytes c s hc (by omega)
    have hrec := ih { s with relayQueue := s.relayQueue ++ [c] }
      (fun d hd => hv d (List.mem_cons_of_mem _ hd))
      (by simp only [List.length_append, List.length_singleton]; omega)
    simp only [writeAll, List.map_cons, List.foldl_cons] at hrec ⊢
    rw [step1, hrec]
    simp

theorem actuation_eq (c : RelayCommand) (i : Fin 4) (hi : i.val + 1 = c.relay_number) :
    (relayPins i, c.state) = actuation c := by
  have : (Fin.ofNat (c.relay_number - 1) : Fin 4) = i := by
    apply Fin.ext
    have := i.isLt
    simp only [Fin.ofNat]
    omega
  rw [actuation, this]

theorem task_drains (q : List RelayCommand) : ∀ s : State,
    s.relayQueue = q → (∀ c ∈ q, c.valid) →
    ∃ s' : State, taskIterations q.length s = some s' ∧ s'.relayQueue = [] ∧
      s'.gpioLog = s.gpioLog ++ q.map actuation := by
  induction q with
  | nil => intro s hq _; exact ⟨s, rfl, hq, by simp⟩
  | cons c cs ih =>
    intro s hq hv
    obtain ⟨h1, h2, _⟩ := hv c (List.mem_cons_self _ _)
    have hi : (⟨c.relay_number - 1, by omega⟩ : Fin 4).val + 1 = c.relay_number := by
      simp only; omega
    have hstep := relayControlTask_cons s c cs _ hq hi
    obtain ⟨s', hs', hq', hlog'⟩ := ih
      { s with
        relayQueue := cs
        relayStates := Function.update s.relayStates ⟨c.relay_number - 1, by omega⟩ (c.state != 0)
        gpioLog := s.gpioLog ++ [(relayPins ⟨c.relay_number - 1, by omega⟩, c.state)]
        notified := if s.deviceConnected && s.pCharacteristic
          then s.notified ++ [ackResponse c] else s.notified }
      rfl (fun d hd => hv d (List.mem_cons_of_mem _ hd))
    refine ⟨s', ?_, hq', ?_⟩
    · simp only [List.length_cons, taskIterations, hstep, Option.some_bind]
      exact hs'
    · rw [hlog', actuation_eq c _ hi]
      simp

theorem step_fifo (e : Event) (s : State) (h : QueueInv s) :
    ∃ s1 : State, step e s = some s1 ∧ QueueInv s1 ∧
      ∃ a : List RelayCommand,
        a ++ s1.relayQueue = s.relayQueue ++ enqueuedAt e s s1 ∧
        actuatedAt e s s1 = a.map actuation := by
  cases e with
  | connect => exact ⟨_, rfl, h, [], by simp [enqueuedAt, onConnect, digitalWrite], rfl⟩
  | disconnect =>
    refine ⟨_, rfl, ?_, [], ?_, rfl⟩
    · rw [onDisconnect, allOffLoop_eq]; exact h
    · rw [onDisconnect, allOffLoop_eq]; simp [enqueuedAt, digitalWrite]
  | write rxValue =>
    obtain ⟨s1, hs1, hinv1⟩ := step_inv (.write rxValue) s h
    refine ⟨s1, hs1, hinv1, [], ?_, rfl⟩
    simp only [step, Option.some.injEq] at hs1
    subst hs1
    rcases onWrite_cases rxValue s with hw | ⟨_, c, _, hw⟩
    · rw [hw]; simp [enqueuedAt]
    · rw [hw]; simp [enqueuedAt]
  | task =>
    cases hq : s.relayQueue with
    | nil =>
      refine ⟨s, relayControlTask_nil s hq, h, [], ?_, ?_⟩
      · simp [enqueuedAt, hq]
      · simp [actuatedAt]
    | cons cmd rest =>
      obtain ⟨h1, h2, _⟩ := h.2 cmd (by rw [hq]; exact List.mem_cons_self _ _)
      have hi : (⟨cmd.relay_number - 1, by omega⟩ : Fin 4).val + 1 = cmd.relay_number := by
        simp only; omega
      have hstep := relayControlTask_cons s cmd rest _ hq hi
      obtain ⟨s1, hs1, hinv1⟩ := step_inv .task s h
      have hs1' : relayControlTask s = some s1 := hs1
      rw [hstep] at hs1'
      simp only [Option.some.injEq] at hs1'
      refine ⟨s1, hs1, hinv1, [cmd], ?_, ?_⟩
      · rw [← hs1']; simp [enqueuedAt]
      · rw [← hs1']; simp [actuatedAt, actuation_eq cmd _ hi]

theorem run_fifo (evs : List Event) : ∀ s : State, QueueInv s →
    ∃ (s' : State) (applied : List RelayCommand), run evs s = some s' ∧ QueueInv s' ∧
      applied ++ s'.relayQueue = s.relayQueue ++ enqueuedBy evs s ∧
      actuatedBy evs s = applied.map actuation := by
  induction evs with
  | nil => intro s h; exact ⟨s, [], rfl, h, by simp [enqueuedBy], by simp [actuatedBy]⟩
  | cons e es ih =>
    intro s h
    obtain ⟨s1, h1, hinv1, a, ha, hact⟩ := step_fifo e s h
    obtain ⟨s2, applied, h2, hinv2, happ, hact2⟩ := ih s1 hinv1
    refine ⟨s2, a ++ applied, by simp [run, h1, h2], hinv2, ?_, ?_⟩
    · simp only [enqueuedBy, h1]
      rw [List.append_assoc, happ, ← List.append_assoc, ha, List.append_assoc]
    · simp only [actuatedBy, h1, hact, hact2, List.map_append]

theorem batch_fifo (cmds : List RelayCommand) (s : State) (hempty : s.relayQueue = [])
    (hv : ∀ c ∈ cmds, c.valid) (hlen : cmds.length ≤ QUEUE_SIZE) :
    (writeAll (cmds.map commandBytes) s).relayQueue = cmds ∧
    ∃ s' : State, taskIterations cmds.length (writeAll (cmds.map commandBytes) s) = some s' ∧
      s'.relayQueue = [] ∧ s'.gpioLog = s.gpioLog ++ cmds.map actuation := by
  have hw := writeAll_commandBytes cmds s hv (by rw [hempty]; simpa [QUEUE_SIZE] using hlen)
  rw [hw, hempty]
  refine ⟨by simp, ?_⟩
  exact task_drains cmds { s with relayQueue := [] ++ cmds } (by simp) hv

/-! ## The write handler -/

/-- C1: a buffer shorter than three bytes, or not starting with R, or whose
channel byte is outside 1 to 4, or whose state byte is neither 0 nor 1 (as
ASCII digits), is rejected by `onWrite`: the queue and the relay states, and in
fact the whole state, are as before. -/
theorem onWrite_rejects (rxValue : List Byte) (s : State)
    (h : rxValue.length < 3 ∨ rxValue.getD 0 0 ≠ 82 ∨
      ¬ (49 ≤ (rxValue.getD 1 0).val ∧ (rxValue.getD 1 0).val ≤ 52) ∨
      ¬ ((rxValue.getD 2 0).val = 48 ∨ (rxValue.getD 2 0).val = 49)) :
    (onWrite rxValue s).relayQueue = s.relayQueue ∧
    (onWrite rxValue s).relayStates = s.relayStates ∧
    onWrite rxValue s = s := by
  have key : onWrite rxValue s = s := by
    unfold onWrite
    split
    · split
      · next hR =>
        have h1 := charToDigit_channel (rxValue.getD 1 0)
        have h2 := charToDigit_level (rxValue.getD 2 0)
        rw [if_neg]
        intro hv
        rcases h with h | h | h | h
        · omega
        · exact h hR.2
        · exact h (h1.mp ⟨hv.1, hv.2.1⟩)
        · exact h (h2.mp hv.2.2)
      · rfl
    · rfl
  rw [key]
  exact ⟨rfl, rfl, rfl⟩

theorem onWrite_rejects_witness :
    (onWrite [82, 53, 49] setup).relayQueue = setup.relayQueue ∧
    (onWrite [82, 53, 49] setup).relayStates = setup.relayStates ∧
    onWrite [82, 53, 49] setup = setup :=
  onWrite_rejects [82, 53, 49] setup (by decide)

/-- C2: a buffer R, channel digit, state digit followed by any trailing bytes,
written while the queue holds fewer than ten commands, appends exactly the
command (channel, state) at the back of the queue and changes nothing else;
the trailing bytes do not matter. -/
theorem onWrite_accepts (c st : Byte) (trailing : List Byte) (s : State)
    (hc : 49 ≤ c.val ∧ c.val ≤ 52) (hs : 48 ≤ st.val ∧ st.val ≤ 49)
    (hq : s.relayQueue.length < 10) :
    onWrite (82 :: c :: st :: trailing) s =
      { s with relayQueue := s.relayQueue ++ [{ relay_number := c.val - 48, state := st.val - 48 }] } ∧
    onWrite (82 :: c :: st :: trailing) s = onWrite [82, c, st] s := by
  have key := fun t : List Byte => onWrite_valid c st t s hc hs hq
  exact ⟨key trailing, (key trailing).trans (key []).symm⟩

theorem onWrite_accepts_witness :
    onWrite (82 :: 50 :: 49 :: [0, 255, 82]) setup =
      { setup with relayQueue := setup.relayQueue ++
          [{ relay_number := (50 : Byte).val - 48, state := (49 : Byte).val - 48 }] } ∧
    onWrite (82 :: 50 :: 49 :: [0, 255, 82]) setup = onWrite [82, 50, 49] setup :=
  onWrite_accepts 50 49 [0, 255, 82] setup (by decide) (by decide) (by decide)

theorem ackResponse_chars (cmd : RelayCommand)
    (hc : 1 ≤ cmd.relay_number ∧ cmd.relay_number ≤ 4)
    (hs : cmd.state = 0 ∨ cmd.state = 1) :
    (ackResponse cmd).length = 7 ∧
    (ackResponse cmd).toList.map Char.toNat =
      [65, 67, 75, 95, 82, 48 + cmd.relay_number, 48 + cmd.state] := by
  obtain ⟨rn, st⟩ := cmd
  simp only at hc hs
  obtain ⟨hc1, hc2⟩ := hc
  interval_cases rn <;> rcases hs with h | h <;> subst h <;> decide

/-! ## The relay control task -/

/-- C3: one iteration of `relayControlTask` that dequeues a command with channel
c in 1..4 and state s in 0..1 succeeds, sets `relayStates[c-1]` to (s = 1),
writes level s to the pin `relayPins[c-1]` (one `digitalWrite`, after which the
pin is at level s), and leaves the recorded state and the pin level of every
other channel as they were. -/
theorem relayControlTask_applies (s : State) (cmd : RelayCommand) (rest : List RelayCommand)
    (hq : s.relayQueue = cmd :: rest)
    (hc : 1 ≤ cmd.relay_number ∧ cmd.relay_number ≤ 4)
    (hs : cmd.state = 0 ∨ cmd.state = 1) :
    ∃ (s' : State) (i : Fin 4), relayControlTask s = some s' ∧
      i.val = cmd.relay_number - 1 ∧
      s'.relayStates i = decide (cmd.state = 1) ∧
      s'.gpioLog = s.gpioLog ++ [(relayPins i, cmd.state)] ∧
      pinLevel s'.gpioLog (relayPins i) = some cmd.state ∧
      ∀ j : Fin 4, j ≠ i →
        s'.relayStates j = s.relayStates j ∧
        pinLevel s'.gpioLog (relayPins j) = pinLevel s.gpioLog (relayPins j) := by
  let i : Fin 4 := ⟨cmd.relay_number - 1, by omega⟩
  have hi : i.val + 1 = cmd.relay_number := by simp only [i]; omega
  refine ⟨_, i, relayControlTask_cons s cmd rest i hq hi, rfl, ?_, rfl, ?_, ?_⟩
  · rcases hs with h | h <;> simp [h]
  · simp [pinLevel_append]
  · intro j hj
    refine ⟨by simp [Function.update, hj], ?_⟩
    have hne : relayPins i ≠ relayPins j := fun h => hj (relayPins_injective h).symm
    simp [pinLevel_append, hne]

theorem relayControlTask_applies_witness :
    ∃ (s' : State) (i : Fin 4),
      relayControlTask { setup with relayQueue := [⟨3, 1⟩, ⟨1, 0⟩] } = some s' ∧
      i.val = (⟨3, 1⟩ : RelayCommand).relay_number - 1 ∧
      s'.relayStates i = decide ((⟨3, 1⟩ : RelayCommand).state = 1) ∧
      s'.gpioLog = ({ setup with relayQueue := [⟨3, 1⟩, ⟨1, 0⟩] } : State).gpioLog ++
        [(relayPins i, (⟨3, 1⟩ : RelayCommand).state)] ∧
      pinLevel s'.gpioLog (relayPins i) = some (⟨3, 1⟩ : RelayCommand).state ∧
      ∀ j : Fin 4, j ≠ i →
        s'.relayStates j = ({ setup with relayQueue := [⟨3, 1⟩, ⟨1, 0⟩] } : State).relayStates j ∧
        pinLevel s'.gpioLog (relayPins j) =
          pinLevel ({ setup with relayQueue := [⟨3, 1⟩, ⟨1, 0⟩] } : State).gpioLog (relayPins j) :=
  relayControlTask_applies { setup with relayQueue := [⟨3, 1⟩, ⟨1, 0⟩] } ⟨3, 1⟩ [⟨1, 0⟩] rfl
    (by decide) (by decide)

/-- C8: one iteration of `relayControlTask` that dequeues a command with channel
c in 1..4 and state s in 0..1 sends, when the device is connected and the
characteristic exists, exactly one notification, whose payload is the seven
ASCII characters ACK_R, the digit of c, the digit of s; when the device is
disconnected it sends none, and the relay state is updated all the same. -/
theorem relayControlTask_ack (s : State) (cmd : RelayCommand) (rest : List RelayCommand)
    (hq : s.relayQueue = cmd :: rest)
    (hc : 1 ≤ cmd.relay_number ∧ cmd.relay_number ≤ 4)
    (hs : cmd.state = 0 ∨ cmd.state = 1) :
    ∃ (s' : State) (i : Fin 4), relayControlTask s = some s' ∧
      i.val = cmd.relay_number - 1 ∧
      s'.relayStates i = decide (cmd.state = 1) ∧
      (s.deviceConnected = true ∧ s.pCharacteristic = true →
        ∃ payload : String, s'.notified = s.notified ++ [payload] ∧
          payload.length = 7 ∧
          payload.toList.map Char.toNat =
            [65, 67, 75, 95, 82, 48 + cmd.relay_number, 48 + cmd.state]) ∧
      (s.deviceConnected = false → s'.notified = s.notified) := by
  let i : Fin 4 := ⟨cmd.relay_number - 1, by omega⟩
  have hi : i.val + 1 = cmd.relay_number := by simp only [i]; omega
  refine ⟨_, i, relayControlTask_cons s cmd rest i hq hi, rfl, ?_, ?_, ?_⟩
  · rcases hs with h | h <;> simp [h]
  · rintro ⟨h1, h2⟩
    exact ⟨ackResponse cmd, by simp [h1, h2], ackResponse_chars cmd hc hs⟩
  · intro h
    simp [h]

theorem relayControlTask_ack_witness :
    ∃ (s' : State) (i : Fin 4),
      relayControlTask (onWrite [82, 49, 49] (onConnect setup)) = some s' ∧
      i.val = (⟨1, 1⟩ : RelayCommand).relay_number - 1 ∧
      s'.relayStates i = decide ((⟨1, 1⟩ : RelayCommand).state = 1) ∧
      ((onWrite [82, 49, 49] (onConnect setup)).deviceConnected = true ∧
        (onWrite [82, 49, 49] (onConnect setup)).pCharacteristic = true →
        ∃ payload : String,
          s'.notified = (onWrite [82, 49, 49] (onConnect setup)).notified ++ [payload] ∧
          payload.length = 7 ∧
          payload.toList.map Char.toNat =
            [65, 67, 75, 95, 82, 48 + (⟨1, 1⟩ : RelayCommand).relay_number,
              48 + (⟨1, 1⟩ : RelayCommand).state]) ∧
      ((onWrite [82, 49, 49] (onConnect setup)).deviceConnected = false →
        s'.notified = (onWrite [82, 49, 49] (onConnect setup)).notified) :=
  relayControlTask_ack (onWrite [82, 49, 49] (onConnect setup)) ⟨1, 1⟩ [] (by decide)
    (by decide) (by decide)

/-! ## Disconnect and the all-off loop -/

/-- C4: after `onDisconnect`, whatever the state before, `deviceConnected` is
false, all four entries of `relayStates` are false, and all four relay pins
have been driven LOW (each is written LOW once and is LOW afterwards). -/
theorem onDisconnect_all_off (s : State) :
    (onDisconnect s).deviceConnected = false ∧
    (∀ i : Fin 4, (onDisconnect s).relayStates i = false) ∧
    (∀ i : Fin 4, pinLevel (onDisconnect s).gpioLog (relayPins i) = some LOW) ∧
    (onDisconnect s).gpioLog = s.gpioLog ++
      [(LED_PIN, LOW), (relayPins 0, LOW), (relayPins 1, LOW), (relayPins 2, LOW),
        (relayPins 3, LOW)] := by
  rw [onDisconnect, allOffLoop_eq]
  refine ⟨rfl, fun _ => rfl, ?_, by simp [digitalWrite, relayPins]⟩
  intro i
  simp only [digitalWrite, pinLevel, List.reverse_append, List.reverse_cons, List.reverse_nil,
    List.nil_append, List.cons_append, List.append_assoc]
  fin_cases i <;> simp [List.find?, relayPins, RELAY_1_PIN, RELAY_2_PIN, RELAY_3_PIN, RELAY_4_PIN]

/-- C9, as amended: run with all four channels already OFF, the all-off loop
(in `emergencyStop` and in `onDisconnect`) leaves the relay states unchanged;
it nevertheless calls `digitalWrite` once on each of the four relay pins,
driving it LOW again, so the number of relay-pin writes grows by exactly four;
and running it twice leaves the same relay states as running it once. -/
theorem allOff_idempotent_states (s : State) :
    ((∀ i : Fin 4, s.relayStates i = false) →
      (emergencyStop s).relayStates = s.relayStates ∧
      (onDisconnect s).relayStates = s.relayStates) ∧
    (emergencyStop s).gpioLog = s.gpioLog ++
      [(relayPins 0, LOW), (relayPins 1, LOW), (relayPins 2, LOW), (relayPins 3, LOW)] ∧
    relayWriteCount (emergencyStop s).gpioLog = relayWriteCount s.gpioLog + 4 ∧
    relayWriteCount (onDisconnect s).gpioLog = relayWriteCount s.gpioLog + 4 ∧
    (emergencyStop (emergencyStop s)).relayStates = (emergencyStop s).relayStates ∧
    (onDisconnect (onDisconnect s)).relayStates = (onDisconnect s).relayStates := by
  refine ⟨?_, ?_, ?_, ?_, ?_, ?_⟩
  · intro hoff
    have hs : s.relayStates = fun _ => false := funext hoff
    constructor
    · rw [emergencyStop, allOffLoop_eq, hs]
    · rw [onDisconnect, allOffLoop_eq, hs]
  · rw [emergencyStop, allOffLoop_eq]
    rfl
  · rw [emergencyStop, allOffLoop_eq]
    exact relayWriteCount_allOff s.gpioLog
  · rw [onDisconnect, allOffLoop_eq]
    simp only [digitalWrite]
    rw [relayWriteCount_allOff, relayWriteCount_led]
  · simp only [emergencyStop, allOffLoop_eq]
  · simp only [onDisconnect, allOffLoop_eq]

theorem allOff_idempotent_states_witness :
    (emergencyStop setup).relayStates = setup.relayStates ∧
    (onDisconnect setup).relayStates = setup.relayStates :=
  (allOff_idempotent_states setup).1 (fun _ => rfl)

/-- C9, as stated, fails: in the state left by `setup` all four channels are
OFF, and both `emergencyStop` and `onDisconnect` nevertheless increase the
number of `digitalWrite` calls on relay pins (from 4 to 8). -/
theorem allOff_actuates_again :
    setup.relayStates = (fun _ => false) ∧
    relayWriteCount setup.gpioLog = 4 ∧
    relayWriteCount (emergencyStop setup).gpioLog = 8 ∧
    relayWriteCount (onDisconnect setup).gpioLog = 8 ∧
    ¬ (relayWriteCount (emergencyStop setup).gpioLog ≤ relayWriteCount setup.gpioLog) ∧
    ¬ (relayWriteCount (onDisconnect setup).gpioLog ≤ relayWriteCount setup.gpioLog) := by
  refine ⟨rfl, by decide, by decide, by decide, by decide, by decide⟩

/-! ## Interleavings of callbacks and task iterations -/

/-- C5, the code at the failing schedule: connect, write R11, disconnect, one
task iteration.  After the disconnect the relays are OFF and the command is
still queued; after the task iteration the device is still disconnected and
relay 1 is ON, its pin at HIGH. -/
theorem queued_command_outlives_disconnect :
    (run [.connect, .write [82, 49, 49], .disconnect] setup).map
        (fun s => (s.deviceConnected, s.relayStates 0, s.relayQueue)) =
      some (false, false, [⟨1, 1⟩]) ∧
    (run [.connect, .write [82, 49, 49], .disconnect, .task] setup).map
        (fun s => (s.deviceConnected, s.relayStates 0, pinLevel s.gpioLog (relayPins 0))) =
      some (false, true, some HIGH) := by
  decide

/-- C7: in every state reachable from `setup` the queue holds at most
`QUEUE_SIZE` = 10 commands; and in any state with 10 commands pending,
`xQueueSend` fails and `onWrite`, whatever buffer it carries, leaves the whole
state (the ten queued commands in their order, the relay states) as it was. -/
theorem queue_backpressure :
    QUEUE_SIZE = 10 ∧
    (∀ (evs : List Event) (s : State), run evs setup = some s →
      s.relayQueue.length ≤ QUEUE_SIZE) ∧
    (∀ (s : State) (rxValue : List Byte), s.relayQueue.length = QUEUE_SIZE →
      (∀ cmd : RelayCommand, xQueueSend s.relayQueue cmd = (s.relayQueue, false)) ∧
      (onWrite rxValue s).relayQueue = s.relayQueue ∧
      (onWrite rxValue s).relayStates = s.relayStates ∧
      onWrite rxValue s = s) := by
  refine ⟨rfl, ?_, ?_⟩
  · intro evs s hrun
    obtain ⟨s', hs', hinv⟩ := run_inv evs setup setup_inv
    rw [hrun] at hs'
    cases hs'
    exact hinv.1
  · intro s rxValue hfull
    refine ⟨fun cmd => by simp [xQueueSend, hfull], ?_⟩
    rw [onWrite_full rxValue s hfull]
    exact ⟨rfl, rfl, rfl⟩

theorem queue_backpressure_witness :
    (writeAll (List.replicate 10 [82, 49, 49]) setup).relayQueue.length ≤ QUEUE_SIZE ∧
    (onWrite [82, 50, 49] (writeAll (List.replicate 10 [82, 49, 49]) setup)).relayQueue =
      List.replicate 10 ⟨1, 1⟩ :=
  ⟨queue_backpressure.2.1 ((List.replicate 10 [82, 49, 49]).map Event.write) _ rfl,
   (queue_backpressure.2.2 (writeAll (List.replicate 10 [82, 49, 49]) setup) [82, 50, 49]
      (by decide)).2.1.trans (by decide)⟩

/-- C10: after any schedule of connects, disconnects, writes of arbitrary
buffers and task iterations starting from `setup` (empty queue), the run has not
faulted, every queued command has `relay_number` in 1..4 and `state` in 0..1, so
that `relayIndex = relay_number - 1` lies in 0..3, and the next iteration of
`relayControlTask` stays within the four-element arrays. -/
theorem queue_index_safe (evs : List Event) :
    ∃ s : State, run evs setup = some s ∧
      (∀ c ∈ s.relayQueue,
        (1 ≤ c.relay_number ∧ c.relay_number ≤ 4) ∧ (c.state = 0 ∨ c.state = 1) ∧
        0 ≤ (c.relay_number : Int) - 1 ∧ (c.relay_number : Int) - 1 < 4) ∧
      ∃ s' : State, relayControlTask s = some s' := by
  obtain ⟨s, hs, hinv⟩ := run_inv evs setup setup_inv
  refine ⟨s, hs, ?_, ?_⟩
  · intro c hc
    obtain ⟨h1, h2, h3⟩ := hinv.2 c hc
    exact ⟨⟨h1, h2⟩, by omega, by omega, by omega⟩
  · obtain ⟨s', hs', _⟩ := step_inv .task s hinv
    exact ⟨s', hs'⟩

/-- C6: commands are applied in the order in which they were enqueued.
(1) Along every schedule from `setup`, the commands applied so far by the task
followed by the commands still queued are exactly the commands successfully
enqueued so far, in order, and the task made exactly the `digitalWrite` calls of
the applied commands, in order.  (2) Writing any list of at most ten valid
commands into an empty queue and then running as many task iterations applies
exactly that list, in order, and empties the queue.  (3) In particular, for
valid A, B, C: three writes and three iterations apply A, then B, then C. -/
theorem fifo_order :
    (∀ evs : List Event, ∃ (s' : State) (applied : List RelayCommand),
      run evs setup = some s' ∧
      applied ++ s'.relayQueue = enqueuedBy evs setup ∧
      actuatedBy evs setup = applied.map actuation) ∧
    (∀ (cmds : List RelayCommand) (s : State), s.relayQueue = [] →
      (∀ c ∈ cmds, c.valid) → cmds.length ≤ QUEUE_SIZE →
      (writeAll (cmds.map commandBytes) s).relayQueue = cmds ∧
      ∃ s' : State, taskIterations cmds.length (writeAll (cmds.map commandBytes) s) = some s' ∧
        s'.relayQueue = [] ∧ s'.gpioLog = s.gpioLog ++ cmds.map actuation) ∧
    (∀ (A B C : RelayCommand) (s : State), s.relayQueue = [] →
      A.valid → B.valid → C.valid →
      (onWrite (commandBytes C) (onWrite (commandBytes B) (onWrite (commandBytes A) s))).relayQueue
        = [A, B, C] ∧
      ∃ s' : State,
        taskIterations 3
          (onWrite (commandBytes C) (onWrite (commandBytes B) (onWrite (commandBytes A) s)))
          = some s' ∧
        s'.relayQueue = [] ∧
        s'.gpioLog = s.gpioLog ++ [actuation A, actuation B, actuation C]) := by
  refine ⟨?_, batch_fifo, ?_⟩
  · intro evs
    obtain ⟨s', applied, hrun, _, happ, hact⟩ := run_fifo evs setup setup_inv
    exact ⟨s', applied, hrun, by simpa [setup] using happ, hact⟩
  · intro A B C s hempty hA hB hC
    have hv : ∀ c ∈ [A, B, C], c.valid := by
      intro c hc
      simp only [List.mem_cons, List.mem_singleton, List.not_mem_nil, or_false] at hc
      rcases hc with h | h | h <;> rw [h] <;> assumption
    exact batch_fifo [A, B, C] s hempty hv (by simp [QUEUE_SIZE])

theorem fifo_order_witness :
    (writeAll ([⟨1, 1⟩, ⟨2, 0⟩, ⟨1, 0⟩].map commandBytes) setup).relayQueue =
      [⟨1, 1⟩, ⟨2, 0⟩, ⟨1, 0⟩] ∧
    ∃ s' : State,
      taskIterations ([⟨1, 1⟩, ⟨2, 0⟩, ⟨1, 0⟩] : List RelayCommand).length
        (writeAll ([⟨1, 1⟩, ⟨2, 0⟩, ⟨1, 0⟩].map commandBytes) setup) = some s' ∧
      s'.relayQueue = [] ∧
      s'.gpioLog = setup.gpioLog ++ [⟨1, 1⟩, ⟨2, 0⟩, ⟨1, 0⟩].map actuation :=
  fifo_order.2.1 [⟨1, 1⟩, ⟨2, 0⟩, ⟨1, 0⟩] setup rfl (by decide) (by decide)

end RelayBLE
